import Mathlib

set_option maxRecDepth 8000

/-!
Shallow embedding of the maubot log streaming core
(src/maubot/management/api/log.py): the `LogCollector` logging handler
(ring buffer of transformed records, listener fan-out) and the
`/logs` websocket handler with its 5-second authentication deadline.

Conventions of the embedding:
* Python dicts with insertion order are association lists
  (`List (String × Val)`); `dict[k] = v` is `setKey`.
* `collections.deque(maxlen=MAX_LINES)` is a list kept to its last
  `MAX_LINES` elements by `dequeAppend`.
* Exceptions are `Except String` results; the fallible points of
  `_emit` are the producer-supplied `record.getMessage()`, the
  formatter's `formatException`, and `asyncio.run_coroutine_threadsafe`
  (which raises without scheduling anything when the loop is closed).
* Scheduling a coroutine on the event loop is appending to a FIFO
  `pending` queue; running one scheduled `send` is `deliverOne`.
* `datetime.astimezone().isoformat()` is modelled by the opaque
  injective stand-in `isoStr` (its exact text is outside the core).
-/

namespace Maubot.Log

/-- Values stored in a log record's `__dict__` and in transformed events:
strings, numbers, and `datetime` objects (carrying their timestamp). -/
inductive Val where
  | str : String → Val
  | int : Int → Val
  | dt : Int → Val
  deriving DecidableEq

/-- A transformed event: a Python dict in insertion order. -/
abbrev Event := List (String × Val)

/-- `BUILTIN_ATTRS` from log.py: the standard `logging.LogRecord` attributes. -/
def BUILTIN_ATTRS : List String :=
  ["args", "asctime", "created", "exc_info", "exc_text", "filename",
   "funcName", "levelname", "levelno", "lineno", "module", "msecs",
   "message", "msg", "name", "pathname", "process", "processName",
   "relativeCreated", "stack_info", "thread", "threadName"]

/-- `INCLUDE_ATTRS` from log.py: builtin attributes that are kept anyway. -/
def INCLUDE_ATTRS : List String :=
  ["filename", "funcName", "levelname", "levelno", "lineno", "module",
   "name", "pathname"]

/-- `EXCLUDE_ATTRS = BUILTIN_ATTRS - INCLUDE_ATTRS` (set difference). -/
def EXCLUDE_ATTRS : List String :=
  BUILTIN_ATTRS.filter (fun a => !(INCLUDE_ATTRS.contains a))

/-- `MAX_LINES = 2048`, the capacity of the history deque. -/
def MAX_LINES : Nat := 2048

/-- Dict assignment `d[k] = v`: replaces in place if the key exists
(keeping its position), otherwise appends at the end. -/
def setKey (d : Event) (k : String) (v : Val) : Event :=
  if d.any (fun p => p.1 == k) then
    d.map (fun p => if p.1 == k then (k, v) else p)
  else
    d ++ [(k, v)]

/-- Opaque stand-in for `value.astimezone().isoformat()`. -/
def isoStr (t : Int) : String := "iso:" ++ toString t

/-- The final loop of `_emit`: every `datetime`-typed value anywhere in the
dict is replaced by its ISO-8601 string form. -/
def isoPass (d : Event) : Event :=
  d.map (fun p =>
    match p.2 with
    | Val.dt t => (p.1, Val.str (isoStr t))
    | _ => p)

/-- A raw `logging.LogRecord` as `_emit` consumes it.  `attrs` is
`record.__dict__` (producer-supplied, insertion-ordered); the two
`Except` fields model the fallible library calls made on it. -/
structure LogRecord where
  attrs : List (String × Val)
  relativeCreated : Nat
  created : Int
  hasExcInfo : Bool
  renderMessage : Except String String
  formatExc : Except String String

/-- The generic copy step of `_emit`: every `record.__dict__` entry whose
name is not in `EXCLUDE_ATTRS`. -/
def contentBase (r : LogRecord) : Event :=
  r.attrs.filter (fun p => !(EXCLUDE_ATTRS.contains p.1))

/-- The pure transform part of `_emit`: builds `content` from a record
(copy, `id`, `msg`, `time`, optional `exc_info`, ISO pass).  Errors are
the exceptions the corresponding Python lines can raise. -/
def buildContent (r : LogRecord) : Except String Event := do
  let content := contentBase r
  let content := setKey content "id" (Val.str (toString r.relativeCreated))
  let msg ← r.renderMessage
  let content := setKey content "msg" (Val.str msg)
  let content := setKey content "time" (Val.dt r.created)
  let content ←
    if r.hasExcInfo then do
      let e ← r.formatExc
      pure (setKey content "exc_info" (Val.str e))
    else
      pure content
  pure (isoPass content)

/-- `deque(maxlen).append`: append, evicting from the front when over
capacity. -/
def dequeAppend (maxlen : Nat) (buf : List α) (x : α) : List α :=
  let b := buf ++ [x]
  if maxlen < b.length then b.drop (b.length - maxlen) else b

/-- State of the `LogCollector` handler plus the event loop it schedules
on: `lines` and `listeners` are its fields, `pending` is the FIFO of
`send` coroutines scheduled but not yet run, `loopClosed` makes
`run_coroutine_threadsafe` raise. -/
structure LogCollector where
  lines : List Event
  listeners : List Nat
  loopClosed : Bool
  pending : List Event
  deriving DecidableEq

/-- A fresh `LogCollector()` attached to a running loop. -/
def initCollector : LogCollector :=
  { lines := [], listeners := [], loopClosed := false, pending := [] }

/-- The observable side-effect steps of a single `_emit` run, in program
order. -/
inductive EmitStep where
  | sched
  | append
  deriving DecidableEq

/-- Position of the first occurrence of a step in a trace (length of the
trace if absent). -/
def stepIndex (s : EmitStep) : List EmitStep → Nat
  | [] => 0
  | t :: ts => if t = s then 0 else stepIndex s ts + 1

/-- `LogCollector._emit`: build `content`, schedule `self.send(content)`
on the loop, then `self.lines.append(content)`.  Returns the new state,
the trace of side-effect steps performed, and the exception if one was
raised.  Mutations happen exactly where the source performs them: the
fallible steps (transform, scheduling) all precede both mutations, and
the buffer append is the final statement. -/
def emitCore (c : LogCollector) (r : LogRecord) :
    LogCollector × List EmitStep × Option String :=
  match buildContent r with
  | Except.error e => (c, [], some e)
  | Except.ok content =>
    if c.loopClosed then
      (c, [], some "RuntimeError: Event loop is closed")
    else
      let c1 := { c with pending := c.pending ++ [content] }
      let c2 := { c1 with lines := dequeAppend MAX_LINES c1.lines content }
      (c2, [EmitStep.sched, EmitStep.append], none)

/-- `LogCollector.emit`: runs `_emit` inside `try/except Exception`,
printing a fallback line instead of propagating.  Returns the new state,
the step trace, and the fallback-sink output. -/
def emit (c : LogCollector) (r : LogRecord) :
    LogCollector × List EmitStep × List String :=
  match emitCore c r with
  | (c1, tr, none) => (c1, tr, [])
  | (c1, tr, some e) => (c1, tr, ["Logging error: " ++ e])

/-- `snapshot()` of the spec: `list(handler.lines)`, oldest first. -/
def snapshot (c : LogCollector) : List Event := c.lines

/-- Feed a sequence of records through `emit` in order. -/
def emitAll (c : LogCollector) : List LogRecord → LogCollector
  | [] => c
  | r :: rs => emitAll (emit c r).1 rs

/-- The transformed events of a record sequence, when every transform
succeeds. -/
def buildAll : List LogRecord → Option (List Event)
  | [] => some []
  | r :: rs =>
    match buildContent r, buildAll rs with
    | Except.ok e, some es => some (e :: es)
    | _, _ => none

/-- A concrete log record used to exercise the definitions. -/
def sampleRecord : LogRecord :=
  { attrs := [("name", Val.str "maubot"), ("args", Val.int 0)]
    relativeCreated := 0
    created := 7
    hasExcInfo := false
    renderMessage := Except.ok "hi"
    formatExc := Except.ok "tb" }

/-- A record whose message rendering raises, as `record.getMessage()` can. -/
def sampleBadRecord : LogRecord :=
  { sampleRecord with renderMessage := Except.error "boom" }

/-- The transformed event `_emit` builds from `sampleRecord`. -/
def sampleEvent : Event :=
  [("name", Val.str "maubot"), ("id", Val.str "0"),
   ("msg", Val.str "hi"), ("time", Val.str (isoStr 7))]

/-! ### Equation lemmas for a single `_emit` run -/

theorem emitCore_error_eq (c : LogCollector) (r : LogRecord) (e : String)
    (hb : buildContent r = Except.error e) :
    emitCore c r = (c, [], some e) := by
  simp [emitCore, hb]

theorem emitCore_closed_eq (c : LogCollector) (r : LogRecord) (e : Event)
    (hb : buildContent r = Except.ok e) (hl : c.loopClosed = true) :
    emitCore c r = (c, [], some "RuntimeError: Event loop is closed") := by
  simp [emitCore, hb, hl]

theorem emitCore_ok_eq (c : LogCollector) (r : LogRecord) (e : Event)
    (hb : buildContent r = Except.ok e) (hl : c.loopClosed = false) :
    emitCore c r =
      ({ c with pending := c.pending ++ [e],
                lines := dequeAppend MAX_LINES c.lines e },
       [EmitStep.sched, EmitStep.append], none) := by
  simp [emitCore, hb, hl]

theorem emit_ok (c : LogCollector) (r : LogRecord) (e : Event)
    (hb : buildContent r = Except.ok e) (hl : c.loopClosed = false) :
    (emit c r).1 = { c with pending := c.pending ++ [e],
                            lines := dequeAppend MAX_LINES c.lines e } := by
  simp [emit, emitCore_ok_eq c r e hb hl]

/-! ### Ring buffer lemmas -/

theorem dequeAppend_eq_drop (M : Nat) (buf : List α) (x : α) :
    dequeAppend M buf x = (buf ++ [x]).drop (buf.length + 1 - M) := by
  unfold dequeAppend
  simp only [List.length_append, List.length_singleton]
  by_cases h : M < buf.length + 1
  · simp [h]
  · have h0 : buf.length + 1 - M = 0 := Nat.sub_eq_zero_of_le (Nat.le_of_not_lt h)
    simp [h, h0]

theorem dequeAppend_length (M : Nat) (buf : List α) (x : α) :
    (dequeAppend M buf x).length = min (buf.length + 1) M := by
  rw [dequeAppend_eq_drop]
  simp only [List.length_drop, List.length_append, List.length_singleton]
  omega

theorem emitAll_lines (rs : List LogRecord) (evs : List Event) (c : LogCollector)
    (hb : buildAll rs = some evs) (hl : c.loopClosed = false)
    (hcap : c.lines.length ≤ MAX_LINES) :
    (emitAll c rs).lines =
      (c.lines ++ evs).drop (c.lines.length + evs.length - MAX_LINES) := by
  induction rs generalizing c evs with
  | nil =>
    simp only [buildAll, Option.some.injEq] at hb
    subst hb
    simp only [emitAll, List.append_nil, List.length_nil, Nat.add_zero]
    have h0 : c.lines.length - MAX_LINES = 0 := by omega
    rw [h0, List.drop_zero]
  | cons r rs ih =>
    simp only [buildAll] at hb
    rcases hbc : buildContent r with e | e <;> rw [hbc] at hb
    · exact absurd hb (by simp)
    rcases hba : buildAll rs with _ | es <;> rw [hba] at hb
    · exact absurd hb (by simp)
    simp only [Option.some.injEq] at hb
    subst hb
    have hstep := emit_ok c r e hbc hl
    have hl1 : (emit c r).1.loopClosed = false := by rw [hstep]; exact hl
    have hcap1 : (emit c r).1.lines.length ≤ MAX_LINES := by
      rw [hstep]
      show (dequeAppend MAX_LINES c.lines e).length ≤ MAX_LINES
      rw [dequeAppend_length]
      omega
    have ihe := ih es (emit c r).1 hba hl1 hcap1
    have hout : emitAll c (r :: rs) = emitAll (emit c r).1 rs := rfl
    rw [hout, ihe, hstep]
    show ((dequeAppend MAX_LINES c.lines e) ++ es).drop
        ((dequeAppend MAX_LINES c.lines e).length + es.length - MAX_LINES)
      = (c.lines ++ e :: es).drop (c.lines.length + (e :: es).length - MAX_LINES)
    rw [dequeAppend_eq_drop]
    have hk : c.lines.length + 1 - MAX_LINES ≤ (c.lines ++ [e]).length := by
      simp only [List.length_append, List.length_singleton]
      omega
    rw [← List.drop_append_of_le_length hk, List.drop_drop]
    have hdl : ((c.lines ++ [e]).drop (c.lines.length + 1 - MAX_LINES)).length
        = c.lines.length + 1 - (c.lines.length + 1 - MAX_LINES) := by
      simp [List.length_drop]
    rw [hdl, List.append_assoc, List.singleton_append]
    have hidx : (c.lines.length + 1 - MAX_LINES) +
        (c.lines.length + 1 - (c.lines.length + 1 - MAX_LINES) + es.length - MAX_LINES)
        = c.lines.length + (e :: es).length - MAX_LINES := by
      simp only [List.length_cons]
      omega
    rw [hidx]

/-- Claim C1: for every sequence of N recorded events, the history snapshot
`list(handler.lines)` is exactly the last min(N, 2048) transformed events in
emission order, oldest first: all N when N ≤ 2048, and exactly the most
recent 2048 (earlier events dropped) when N > 2048. -/
theorem snapshot_last_events (rs : List LogRecord) (evs : List Event)
    (hb : buildAll rs = some evs) :
    snapshot (emitAll initCollector rs) = evs.drop (evs.length - MAX_LINES)
    ∧ (snapshot (emitAll initCollector rs)).length = min evs.length MAX_LINES := by
  have h := emitAll_lines rs evs initCollector hb rfl (by simp [initCollector])
  have h2 : snapshot (emitAll initCollector rs) = evs.drop (evs.length - MAX_LINES) := by
    rw [snapshot, h]
    simp [initCollector]
  refine ⟨h2, ?_⟩
  rw [h2, List.length_drop]
  omega

theorem snapshot_last_events_witness :
    buildAll [sampleRecord] = some [sampleEvent]
    ∧ snapshot (emitAll initCollector [sampleRecord])
        = [sampleEvent].drop ([sampleEvent].length - MAX_LINES) :=
  ⟨by decide, (snapshot_last_events [sampleRecord] [sampleEvent] (by decide)).1⟩

/-- Claim C4: an exception anywhere in `_emit` (transforming the record or
scheduling its delivery) never propagates out of `emit`: it is caught and
reported to the fallback sink, and the producer's call returns normally
(with the state `_emit` left behind). -/
theorem emit_catches_errors (c : LogCollector) (r : LogRecord) (e : String)
    (h : (emitCore c r).2.2 = some e) :
    (emit c r).2.2 = ["Logging error: " ++ e]
    ∧ (emit c r).1 = (emitCore c r).1 := by
  rcases hco : emitCore c r with ⟨c1, tr, oe⟩
  rw [hco] at h
  simp only at h
  subst h
  simp [emit, hco]

theorem emit_catches_errors_witness :
    (emitCore initCollector sampleBadRecord).2.2 = some "boom"
    ∧ (emit initCollector sampleBadRecord).2.2 = ["Logging error: " ++ "boom"] :=
  ⟨by decide, (emit_catches_errors initCollector sampleBadRecord "boom" (by decide)).1⟩

/-- Claim C5 counterexample: in `_emit` run on a concrete record, the buffer
append does NOT precede the scheduling of delivery — the trace of side
effects puts the scheduling step strictly first, refuting
"transform, then append, then schedule". -/
theorem append_not_before_sched :
    ¬ (stepIndex EmitStep.append (emitCore initCollector sampleRecord).2.1 <
       stepIndex EmitStep.sched (emitCore initCollector sampleRecord).2.1) := by
  decide

/-- Claim C5 (amended): in `_emit`, for every record whose capture succeeds,
asynchronous delivery of the transformed event is scheduled strictly before
the event is appended to the ring buffer (transform, then schedule, then
append), so at the moment delivery is scheduled the event is not yet in the
buffer. -/
theorem sched_before_append (c : LogCollector) (r : LogRecord)
    (h : (emitCore c r).2.2 = none) :
    (emitCore c r).2.1 = [EmitStep.sched, EmitStep.append]
    ∧ stepIndex EmitStep.sched (emitCore c r).2.1 <
        stepIndex EmitStep.append (emitCore c r).2.1 := by
  rcases hb : buildContent r with e | e
  · rw [emitCore_error_eq c r e hb] at h
    exact absurd h (by simp)
  rcases hl : c.loopClosed
  · rw [emitCore_ok_eq c r e hb hl]
    refine ⟨rfl, ?_⟩
    show stepIndex EmitStep.sched [EmitStep.sched, EmitStep.append] <
        stepIndex EmitStep.append [EmitStep.sched, EmitStep.append]
    decide
  · rw [emitCore_closed_eq c r e hb hl] at h
    exact absurd h (by simp)

theorem sched_before_append_witness :
    (emitCore initCollector sampleRecord).2.2 = none
    ∧ (emitCore initCollector sampleRecord).2.1
        = [EmitStep.sched, EmitStep.append] :=
  ⟨by decide, (sched_before_append initCollector sampleRecord (by decide)).1⟩

/-- Claim C10: if any step of `_emit` raises, the ring buffer is left
unchanged — the append is the final statement of `_emit`, so a failed
capture never adds a partially built event to the history. -/
theorem emit_error_preserves_lines (c : LogCollector) (r : LogRecord) (e : String)
    (h : (emitCore c r).2.2 = some e) :
    (emitCore c r).1.lines = c.lines ∧ (emit c r).1.lines = c.lines := by
  rcases hb : buildContent r with e0 | e0
  · rw [emit, emitCore_error_eq c r e0 hb]
    exact ⟨rfl, rfl⟩
  rcases hl : c.loopClosed
  · rw [emitCore_ok_eq c r e0 hb hl] at h
    exact absurd h (by simp)
  · rw [emit, emitCore_closed_eq c r e0 hb hl]
    exact ⟨rfl, rfl⟩

theorem emit_error_preserves_lines_witness :
    (emitCore initCollector sampleBadRecord).2.2 = some "boom"
    ∧ (emitCore initCollector sampleBadRecord).1.lines = initCollector.lines :=
  ⟨by decide,
   (emit_error_preserves_lines initCollector sampleBadRecord "boom" (by decide)).1⟩

/-- Claim C9: the generic copy step of `_emit` keeps exactly the
producer-supplied attributes outside `EXCLUDE_ATTRS`; that excluded set is
precisely {args, asctime, created, exc_info, exc_text, msecs, message, msg,
process, processName, relativeCreated, stack_info, thread, threadName}; and
the allow-listed attributes (filename, funcName, levelname, levelno, lineno,
module, name, pathname) are never excluded, so they are always kept. -/
theorem transform_attr_policy (r : LogRecord) (k : String) (v : Val)
    (hkv : (k, v) ∈ r.attrs) :
    ((k, v) ∈ contentBase r ↔ k ∉ EXCLUDE_ATTRS)
    ∧ EXCLUDE_ATTRS =
        ["args", "asctime", "created", "exc_info", "exc_text", "msecs",
         "message", "msg", "process", "processName", "relativeCreated",
         "stack_info", "thread", "threadName"]
    ∧ (∀ a ∈ INCLUDE_ATTRS, a ∉ EXCLUDE_ATTRS) := by
  refine ⟨?_, by decide, by decide⟩
  simp [contentBase, List.mem_filter, hkv]

theorem transform_attr_policy_witness :
    ("name", Val.str "maubot") ∈ sampleRecord.attrs
    ∧ (("name", Val.str "maubot") ∈ contentBase sampleRecord
        ↔ "name" ∉ EXCLUDE_ATTRS) :=
  ⟨by decide,
   (transform_attr_policy sampleRecord "name" (Val.str "maubot") (by decide)).1⟩

/-! ### The websocket side: `log_websocket`, `stop_all`, `send`

One `Sys` value holds the module-level state of log.py (the handler, the
`sockets` list, whether `logging.root` still has the handler attached) and
the per-connection state of every `log_websocket` coroutine (its `ws`
handle, its local `authenticated` flag, the messages sent to the client).
The concurrency of asyncio's single-threaded loop is modelled by an
explicit interleaving of atomic steps (`Act`): inbound frames, the
5-second deadline firing, loop exit, producer `record()` calls, running
one scheduled `send` coroutine (FIFO), and shutdown. -/

/-- A JSON message the server sends to one client. -/
inductive OutMsg where
  | authSuccess : Bool → OutMsg
  | history : List Event → OutMsg
  | event : Event → OutMsg
  deriving DecidableEq

/-- Per-connection state: the transport handle plus the handler
coroutine's local `authenticated` flag.  `sendFails` and `closeFails` are
opaque transport behavior: whether `ws.send_json` / `ws.close` raise for
this connection. -/
structure Conn where
  isOpen : Bool
  authenticated : Bool
  closeCode : Option Nat
  sent : List OutMsg
  sendFails : Bool
  closeFails : Bool
  deriving DecidableEq

/-- A freshly accepted, unauthenticated connection. -/
def freshConn (sendFails closeFails : Bool) : Conn :=
  { isOpen := true, authenticated := false, closeCode := none,
    sent := [], sendFails := sendFails, closeFails := closeFails }

/-- The whole module state: `attached` is whether `logging.root` still has
the handler; `sockets` is the module-level tracking list; `conns` maps
connection ids to their state; `fallback` is the stderr fallback sink. -/
structure Sys where
  attached : Bool
  collector : LogCollector
  sockets : List Nat
  conns : List (Nat × Conn)
  fallback : List String
  deriving DecidableEq

def getConnL : List (Nat × Conn) → Nat → Option Conn
  | [], _ => none
  | p :: ps, c => if p.1 = c then some p.2 else getConnL ps c

def updateConnL : List (Nat × Conn) → Nat → Conn → List (Nat × Conn)
  | [], _, _ => []
  | p :: ps, c, k => if p.1 = c then (p.1, k) :: ps else p :: updateConnL ps c k

def getConn (s : Sys) (c : Nat) : Option Conn := getConnL s.conns c

def updateConn (s : Sys) (c : Nat) (k : Conn) : Sys :=
  { s with conns := updateConnL s.conns c k }

/-- `await ws.prepare(request); sockets.append(ws)`: accept a connection. -/
def wsConnect (s : Sys) (c : Nat) (sendFails closeFails : Bool) : Sys :=
  { s with sockets := s.sockets ++ [c],
           conns := s.conns ++ [(c, freshConn sendFails closeFails)] }

/-- One iteration of the `async for` loop on a TEXT frame: validate the
payload as a token; on success send `auth_success: true` then the
`history` snapshot and, if this is the first success, append to
`handler.listeners` and set `authenticated`; on failure reply
`auth_success: false` only while unauthenticated. -/
def handleText (valid : String → Bool) (s : Sys) (c : Nat) (tok : String) : Sys :=
  match getConn s c with
  | none => s
  | some conn =>
    if conn.isOpen then
      if valid tok then
        let conn1 := { conn with
          sent := conn.sent ++ [OutMsg.authSuccess true,
                                OutMsg.history s.collector.lines] }
        if conn.authenticated then
          updateConn s c conn1
        else
          let s1 := updateConn s c { conn1 with authenticated := true }
          { s1 with collector :=
              { s1.collector with listeners := s1.collector.listeners ++ [c] } }
      else
        if conn.authenticated then s
        else updateConn s c { conn with sent := conn.sent ++ [OutMsg.authSuccess false] }
    else s

/-- `close_if_not_authenticated` after its `asyncio.sleep(5)`: if the
connection is still unauthenticated, `ws.close(code=4000)` (a no-op on an
already-closed socket); if authenticated, do nothing. -/
def timerFire (s : Sys) (c : Nat) : Sys :=
  match getConn s c with
  | none => s
  | some conn =>
    if conn.authenticated then s
    else if conn.isOpen then
      updateConn s c { conn with isOpen := false, closeCode := some 4000 }
    else s

/-- The epilogue of `log_websocket` after the `async for` loop exits:
remove from `handler.listeners` when authenticated, then
`sockets.remove(ws)`. -/
def loopExit (s : Sys) (c : Nat) : Sys :=
  match getConn s c with
  | none => s
  | some conn =>
    let s1 :=
      if conn.authenticated then
        { s with collector :=
            { s.collector with listeners := s.collector.listeners.erase c } }
      else s
    let s2 := updateConn s1 c { conn with isOpen := false }
    { s2 with sockets := s2.sockets.erase c }

/-- A producer log call reaching the root logger: runs `emit` only while
the handler is attached. -/
def produce (s : Sys) (r : LogRecord) : Sys :=
  if s.attached then
    let res := emit s.collector r
    { s with collector := res.1, fallback := s.fallback ++ res.2.2 }
  else s

/-- One `await ws.send_json(record)` inside `LogCollector.send`: delivers
to an open, healthy socket; otherwise the exception is caught and printed. -/
def sendEventTo (conns : List (Nat × Conn)) (e : Event) (l : Nat) :
    List (Nat × Conn) × List String :=
  match getConnL conns l with
  | none => (conns, ["Log sending error: " ++ toString l])
  | some conn =>
    if conn.isOpen && !conn.sendFails then
      (updateConnL conns l { conn with sent := conn.sent ++ [OutMsg.event e] }, [])
    else
      (conns, ["Log sending error: " ++ toString l])

/-- The `for ws in self.listeners` loop of `LogCollector.send`: one try/except
send per listener, in order; a failure never stops the loop. -/
def fanout (e : Event) : List Nat → List (Nat × Conn) → List (Nat × Conn) × List String
  | [], conns => (conns, [])
  | l :: ls, conns =>
    let r1 := sendEventTo conns e l
    let r2 := fanout e ls r1.1
    (r2.1, r1.2 ++ r2.2)

/-- Run the oldest scheduled `send` coroutine (FIFO). -/
def deliverOne (s : Sys) : Sys :=
  match s.collector.pending with
  | [] => s
  | e :: rest =>
    let r := fanout e s.collector.listeners s.conns
    { s with conns := r.1,
             fallback := s.fallback ++ r.2,
             collector := { s.collector with pending := rest } }

/-- One `await socket.close(code=1012)` of `stop_all`, inside its
`try/except: pass` (a no-op on an already-closed or failing socket). -/
def closeSock (conns : List (Nat × Conn)) (c : Nat) : List (Nat × Conn) :=
  match getConnL conns c with
  | none => conns
  | some conn =>
    if conn.closeFails then conns
    else if conn.isOpen then
      updateConnL conns c { conn with isOpen := false, closeCode := some 1012 }
    else conns

/-- `stop_all()`: `logging.root.removeHandler(handler)` then best-effort
close of every tracked socket with code 1012. -/
def stopAll (s : Sys) : Sys :=
  { s with attached := false, conns := s.sockets.foldl closeSock s.conns }

/-- The atomic steps whose interleaving models the shared asyncio loop. -/
inductive Act where
  | connect : Nat → Bool → Bool → Act
  | text : Nat → String → Act
  | binaryMsg : Nat → Act
  | timer : Nat → Act
  | exitLoop : Nat → Act
  | record : LogRecord → Act
  | deliver : Act
  | shutdown : Act

def step (valid : String → Bool) (s : Sys) : Act → Sys
  | Act.connect c sf cf => wsConnect s c sf cf
  | Act.text c tok => handleText valid s c tok
  | Act.binaryMsg _ => s
  | Act.timer c => timerFire s c
  | Act.exitLoop c => loopExit s c
  | Act.record r => produce s r
  | Act.deliver => deliverOne s
  | Act.shutdown => stopAll s

def run (valid : String → Bool) (s : Sys) (acts : List Act) : Sys :=
  acts.foldl (step valid) s

/-- The module state right after `init`: handler attached, no connections. -/
def initSys : Sys :=
  { attached := true, collector := initCollector, sockets := [],
    conns := [], fallback := [] }

/-- The opaque `is_valid_token` predicate instantiated for witnesses. -/
def sampleValid (t : String) : Bool := t == "secret"

/-! ### Lookup and update lemmas for the connection table -/

theorem getConnL_update_self (conns : List (Nat × Conn)) (c : Nat) (k conn0 : Conn)
    (h : getConnL conns c = some conn0) :
    getConnL (updateConnL conns c k) c = some k := by
  induction conns with
  | nil => simp [getConnL] at h
  | cons p ps ih =>
    by_cases hp : p.1 = c
    · simp [getConnL, updateConnL, hp]
    · simp only [getConnL, updateConnL, hp, if_false, if_neg hp] at h ⊢
      exact ih h

theorem getConnL_update_ne (conns : List (Nat × Conn)) (l c : Nat) (k : Conn)
    (h : l ≠ c) :
    getConnL (updateConnL conns l k) c = getConnL conns c := by
  induction conns with
  | nil => rfl
  | cons p ps ih =>
    by_cases hp : p.1 = l
    · have hpc : ¬ p.1 = c := by rw [hp]; exact h
      simp [getConnL, updateConnL, hp, hpc, h]
    · by_cases hpc : p.1 = c
      · simp [getConnL, updateConnL, hp, hpc, Ne.symm h]
      · simp [getConnL, updateConnL, hp, hpc, ih]

/-- Claim C2: a connection that, while unauthenticated, sends an invalid
token and then a valid one receives `auth_success: false`, then
`auth_success: true`, then exactly one `history` message carrying the
buffer snapshot, and is appended to `handler.listeners` exactly once. -/
theorem auth_retry_flow (valid : String → Bool) (s : Sys) (c : Nat)
    (conn : Conn) (t1 t2 : String)
    (hg : getConn s c = some conn) (ho : conn.isOpen = true)
    (ha : conn.authenticated = false) (hnl : c ∉ s.collector.listeners)
    (h1 : valid t1 = false) (h2 : valid t2 = true) :
    getConn (run valid s [Act.text c t1, Act.text c t2]) c
      = some { conn with
               authenticated := true,
               sent := conn.sent ++
                 [OutMsg.authSuccess false, OutMsg.authSuccess true,
                  OutMsg.history s.collector.lines] }
    ∧ (run valid s [Act.text c t1, Act.text c t2]).collector.listeners
        = s.collector.listeners ++ [c]
    ∧ (run valid s [Act.text c t1, Act.text c t2]).collector.listeners.count c = 1 := by
  obtain ⟨o, a, cc, st, sf, cf⟩ := conn
  dsimp only at ho ha
  subst ho
  subst ha
  have hupd : ∀ k : Conn, getConnL (updateConnL s.conns c k) c = some k :=
    fun k => getConnL_update_self s.conns c k _ hg
  have e1 : handleText valid s c t1
      = updateConn s c ⟨true, false, cc, st ++ [OutMsg.authSuccess false], sf, cf⟩ := by
    simp [handleText, hg, h1]
  have hrun : run valid s [Act.text c t1, Act.text c t2]
      = handleText valid (handleText valid s c t1) c t2 := rfl
  have e2 : handleText valid (handleText valid s c t1) c t2
      = { attached := s.attached,
          collector := { lines := s.collector.lines,
                         listeners := s.collector.listeners ++ [c],
                         loopClosed := s.collector.loopClosed,
                         pending := s.collector.pending },
          sockets := s.sockets,
          conns := updateConnL
            (updateConnL s.conns c
              ⟨true, false, cc, st ++ [OutMsg.authSuccess false], sf, cf⟩)
            c
            ⟨true, true, cc,
             st ++ [OutMsg.authSuccess false, OutMsg.authSuccess true,
                    OutMsg.history s.collector.lines], sf, cf⟩,
          fallback := s.fallback } := by
    rw [e1]
    simp [handleText, getConn, updateConn, hupd, h2]
  rw [hrun, e2]
  refine ⟨?_, rfl, ?_⟩
  · show getConnL (updateConnL _ c _) c = _
    rw [getConnL_update_self _ c _ _ (hupd _)]
  · show (s.collector.listeners ++ [c]).count c = 1
    rw [List.count_append]
    have h0 : s.collector.listeners.count c = 0 :=
      List.count_eq_zero_of_not_mem hnl
    simp [h0]

theorem auth_retry_flow_witness :
    getConn (run sampleValid (wsConnect initSys 1 false false)
        [Act.text 1 "wrong", Act.text 1 "secret"]) 1
      = some ⟨true, true, none,
          [OutMsg.authSuccess false, OutMsg.authSuccess true, OutMsg.history []],
          false, false⟩
    ∧ (run sampleValid (wsConnect initSys 1 false false)
        [Act.text 1 "wrong", Act.text 1 "secret"]).collector.listeners.count 1 = 1 := by
  have h := auth_retry_flow sampleValid (wsConnect initSys 1 false false) 1
    (freshConn false false) "wrong" "secret" (by decide) rfl rfl (by decide)
    (by decide) (by decide)
  refine ⟨?_, h.2.2⟩
  rw [h.1]
  rfl

/-! ### Sent-message bookkeeping for the fan-out claims -/

/-- The messages sent so far to connection `c` (empty if unknown). -/
def connSentL (conns : List (Nat × Conn)) (c : Nat) : List OutMsg :=
  match getConnL conns c with
  | none => []
  | some conn => conn.sent

def connSent (s : Sys) (c : Nat) : List OutMsg := connSentL s.conns c

/-- No live log event among these messages. -/
def noEvents (msgs : List OutMsg) : Bool :=
  msgs.all (fun m => match m with | OutMsg.event _ => false | _ => true)

/-- Whether an act is a successful authentication of connection `c`. -/
def actAuthorizes (valid : String → Bool) (c : Nat) : Act → Bool
  | Act.text c2 tok => c2 == c && valid tok
  | _ => false

theorem getConnL_append_single (xs : List (Nat × Conn)) (d : Nat) (k : Conn) (c : Nat) :
    getConnL (xs ++ [(d, k)]) c
      = match getConnL xs c with
        | some v => some v
        | none => if d = c then some k else none := by
  induction xs with
  | nil => rfl
  | cons p ps ih =>
    by_cases hp : p.1 = c
    · simp [getConnL, hp]
    · simp [getConnL, hp, ih]

theorem sendEventTo_getConnL_ne (conns : List (Nat × Conn)) (e : Event) (l c : Nat)
    (h : l ≠ c) :
    getConnL (sendEventTo conns e l).1 c = getConnL conns c := by
  unfold sendEventTo
  cases hgl : getConnL conns l with
  | none => rfl
  | some conn =>
    by_cases hoc : (conn.isOpen && !conn.sendFails) = true
    · simp [hoc, getConnL_update_ne _ _ _ _ h]
    · simp [hoc]

theorem fanout_getConnL_of_not_mem (e : Event) (ls : List Nat)
    (conns : List (Nat × Conn)) (c : Nat) (h : c ∉ ls) :
    getConnL (fanout e ls conns).1 c = getConnL conns c := by
  induction ls generalizing conns with
  | nil => rfl
  | cons l ls ih =>
    have hlc : l ≠ c := fun hh => h (hh ▸ List.mem_cons_self l ls)
    have hc : c ∉ ls := fun hh => h (List.mem_cons_of_mem _ hh)
    show getConnL (fanout e ls (sendEventTo conns e l).1).1 c = _
    rw [ih (sendEventTo conns e l).1 hc, sendEventTo_getConnL_ne conns e l c hlc]

theorem closeSock_connSentL (conns : List (Nat × Conn)) (d c : Nat) :
    connSentL (closeSock conns d) c = connSentL conns c := by
  unfold closeSock
  cases hgd : getConnL conns d with
  | none => rfl
  | some conn =>
    by_cases hcf : conn.closeFails = true
    · simp [hcf]
    · by_cases ho : conn.isOpen = true
      · simp only [hcf, ho, if_true, if_false, Bool.false_eq_true]
        by_cases hdc : d = c
        · subst hdc
          unfold connSentL
          rw [getConnL_update_self _ _ _ _ hgd, hgd]
        · unfold connSentL
          rw [getConnL_update_ne _ _ _ _ hdc]
      · simp [hcf, ho]

theorem foldl_closeSock_connSentL (socks : List Nat) (conns : List (Nat × Conn)) (c : Nat) :
    connSentL (socks.foldl closeSock conns) c = connSentL conns c := by
  induction socks generalizing conns with
  | nil => rfl
  | cons d ds ih => rw [List.foldl_cons, ih, closeSock_connSentL]

theorem emit_listeners (col : LogCollector) (r : LogRecord) :
    (emit col r).1.listeners = col.listeners := by
  rcases hb : buildContent r with e | e
  · simp [emit, emitCore_error_eq col r e hb]
  · rcases hl : col.loopClosed
    · simp [emit, emitCore_ok_eq col r e hb hl]
    · simp [emit, emitCore_closed_eq col r e hb hl]

theorem noEvents_append (xs ys : List OutMsg) :
    noEvents (xs ++ ys) = (noEvents xs && noEvents ys) := by
  simp [noEvents, List.all_append]

theorem handleText_listeners (valid : String → Bool) (s : Sys) (c2 : Nat) (tok : String) :
    (handleText valid s c2 tok).collector.listeners = s.collector.listeners
    ∨ (valid tok = true ∧
       (handleText valid s c2 tok).collector.listeners = s.collector.listeners ++ [c2]) := by
  unfold handleText
  cases hgc2 : getConn s c2 with
  | none => exact Or.inl rfl
  | some conn2 =>
    by_cases ho2 : conn2.isOpen = true
    · by_cases hv : valid tok = true
      · by_cases hau : conn2.authenticated = true
        · simp [ho2, hv, hau, updateConn]
        · simp [ho2, hv, hau, updateConn]
      · by_cases hau : conn2.authenticated = true
        · simp [ho2, hv, hau]
        · simp [ho2, hv, hau, updateConn]
    · simp [ho2]

theorem handleText_connSent (valid : String → Bool) (s : Sys) (c2 : Nat) (tok : String)
    (c : Nat) :
    ∃ tail, connSent (handleText valid s c2 tok) c = connSent s c ++ tail
      ∧ noEvents tail = true := by
  unfold handleText
  cases hgc2 : getConn s c2 with
  | none => exact ⟨[], by simp, rfl⟩
  | some conn2 =>
    have hgl : getConnL s.conns c2 = some conn2 := hgc2
    have hupd : ∀ k : Conn, getConnL (updateConnL s.conns c2 k) c2 = some k :=
      fun k => getConnL_update_self s.conns c2 k conn2 hgc2
    by_cases hc2c : c2 = c
    · subst hc2c
      by_cases ho2 : conn2.isOpen = true
      · by_cases hv : valid tok = true
        · by_cases hau : conn2.authenticated = true
          · refine ⟨[OutMsg.authSuccess true, OutMsg.history s.collector.lines], ?_, rfl⟩
            simp [ho2, hv, hau, connSent, connSentL, updateConn, getConn, hupd, hgl]
          · refine ⟨[OutMsg.authSuccess true, OutMsg.history s.collector.lines], ?_, rfl⟩
            simp [ho2, hv, hau, connSent, connSentL, updateConn, getConn, hupd, hgl]
        · by_cases hau : conn2.authenticated = true
          · refine ⟨[], by simp [ho2, hv, hau], rfl⟩
          · refine ⟨[OutMsg.authSuccess false], ?_, rfl⟩
            simp [ho2, hv, hau, connSent, connSentL, updateConn, getConn, hupd, hgl]
      · exact ⟨[], by simp [ho2], rfl⟩
    · refine ⟨[], ?_, rfl⟩
      rw [List.append_nil]
      have hne : ∀ k : Conn, getConnL (updateConnL s.conns c2 k) c = getConnL s.conns c :=
        fun k => getConnL_update_ne s.conns c2 c k hc2c
      by_cases ho2 : conn2.isOpen = true
      · by_cases hv : valid tok = true
        · by_cases hau : conn2.authenticated = true
          · simp [ho2, hv, hau, connSent, connSentL, updateConn, getConn, hne]
          · simp [ho2, hv, hau, connSent, connSentL, updateConn, getConn, hne]
        · by_cases hau : conn2.authenticated = true
          · simp [ho2, hv, hau]
          · simp [ho2, hv, hau, connSent, connSentL, updateConn, getConn, hne]
      · simp [ho2]

theorem timerFire_listeners (s : Sys) (c2 : Nat) :
    (timerFire s c2).collector.listeners = s.collector.listeners := by
  unfold timerFire
  cases hgc2 : getConn s c2 with
  | none => rfl
  | some conn2 =>
    by_cases hau : conn2.authenticated = true
    · simp [hau]
    · by_cases ho2 : conn2.isOpen = true
      · simp [hau, ho2, updateConn]
      · simp [hau, ho2]

theorem timerFire_connSent (s : Sys) (c2 c : Nat) :
    connSent (timerFire s c2) c = connSent s c := by
  unfold timerFire
  cases hgc2 : getConn s c2 with
  | none => rfl
  | some conn2 =>
    by_cases hau : conn2.authenticated = true
    · simp [hau]
    · by_cases ho2 : conn2.isOpen = true
      · have hgl : getConnL s.conns c2 = some conn2 := hgc2
        have hupd : ∀ k : Conn, getConnL (updateConnL s.conns c2 k) c2 = some k :=
          fun k => getConnL_update_self s.conns c2 k conn2 hgc2
        simp only [hau, ho2, if_true, if_false, Bool.false_eq_true]
        by_cases hc2c : c2 = c
        · subst hc2c
          simp [connSent, connSentL, updateConn, getConn, hupd, hgl]
        · have hnec : ∀ k : Conn, getConnL (updateConnL s.conns c2 k) c = getConnL s.conns c :=
            fun k => getConnL_update_ne s.conns c2 c k hc2c
          simp [connSent, connSentL, updateConn, getConn, hnec]
      · simp [hau, ho2]

theorem loopExit_listeners (s : Sys) (c2 : Nat) :
    (loopExit s c2).collector.listeners = s.collector.listeners
    ∨ (loopExit s c2).collector.listeners = s.collector.listeners.erase c2 := by
  unfold loopExit
  cases hgc2 : getConn s c2 with
  | none => exact Or.inl rfl
  | some conn2 =>
    by_cases hau : conn2.authenticated = true
    · simp [hau, updateConn]
    · simp [hau, updateConn]

theorem loopExit_connSent (s : Sys) (c2 c : Nat) :
    connSent (loopExit s c2) c = connSent s c := by
  unfold loopExit
  cases hgc2 : getConn s c2 with
  | none => rfl
  | some conn2 =>
    have hgl : getConnL s.conns c2 = some conn2 := hgc2
    by_cases hc2c : c2 = c
    · subst hc2c
      have hupd : ∀ k : Conn, getConnL (updateConnL s.conns c2 k) c2 = some k :=
        fun k => getConnL_update_self s.conns c2 k conn2 hgc2
      by_cases hau : conn2.authenticated = true
      · simp [hau, connSent, connSentL, updateConn, getConn, hupd, hgl]
      · simp [hau, connSent, connSentL, updateConn, getConn, hupd, hgl]
    · have hnec : ∀ k : Conn, getConnL (updateConnL s.conns c2 k) c = getConnL s.conns c :=
        fun k => getConnL_update_ne s.conns c2 c k hc2c
      by_cases hau : conn2.authenticated = true
      · simp [hau, connSent, connSentL, updateConn, getConn, hnec]
      · simp [hau, connSent, connSentL, updateConn, getConn, hnec]

theorem produce_conns (s : Sys) (r : LogRecord) : (produce s r).conns = s.conns := by
  unfold produce
  by_cases hat : s.attached = true <;> simp [hat]

theorem produce_listeners (s : Sys) (r : LogRecord) :
    (produce s r).collector.listeners = s.collector.listeners := by
  unfold produce
  by_cases hat : s.attached = true
  · simp [hat, emit_listeners]
  · simp [hat]

theorem deliverOne_listeners (s : Sys) :
    (deliverOne s).collector.listeners = s.collector.listeners := by
  unfold deliverOne
  cases hp : s.collector.pending with
  | nil => rfl
  | cons e rest => simp

theorem deliverOne_connSent_of_not_mem (s : Sys) (c : Nat)
    (h : c ∉ s.collector.listeners) :
    connSent (deliverOne s) c = connSent s c := by
  unfold deliverOne
  cases hp : s.collector.pending with
  | nil => rfl
  | cons e rest =>
    show connSentL (fanout e s.collector.listeners s.conns).1 c = connSentL s.conns c
    unfold connSentL
    rw [fanout_getConnL_of_not_mem e s.collector.listeners s.conns c h]

theorem stopAll_listeners (s : Sys) :
    (stopAll s).collector.listeners = s.collector.listeners := rfl

theorem stopAll_connSent (s : Sys) (c : Nat) :
    connSent (stopAll s) c = connSent s c := by
  show connSentL (s.sockets.foldl closeSock s.conns) c = connSentL s.conns c
  exact foldl_closeSock_connSentL s.sockets s.conns c

theorem step_preserves_silent (valid : String → Bool) (s : Sys) (c : Nat) (a : Act)
    (hnl : c ∉ s.collector.listeners)
    (hsent : noEvents (connSent s c) = true)
    (ha : actAuthorizes valid c a = false) :
    c ∉ (step valid s a).collector.listeners
    ∧ noEvents (connSent (step valid s a) c) = true := by
  cases a with
  | connect c2 sf cf =>
    refine ⟨hnl, ?_⟩
    show noEvents (connSentL (s.conns ++ [(c2, freshConn sf cf)]) c) = true
    unfold connSentL
    rw [getConnL_append_single]
    cases hgc : getConnL s.conns c with
    | none =>
      by_cases hdc : c2 = c
      · simp [hdc, freshConn, noEvents]
      · simp [hdc, noEvents]
    | some conn =>
      simp only [hgc]
      have hcs : connSent s c = conn.sent := by
        unfold connSent connSentL
        rw [hgc]
      rw [hcs] at hsent
      exact hsent
  | text c2 tok =>
    constructor
    · show c ∉ (handleText valid s c2 tok).collector.listeners
      rcases handleText_listeners valid s c2 tok with h | ⟨hv, h⟩
      · rw [h]; exact hnl
      · have hc2c : c2 ≠ c := by
          intro hh
          subst hh
          simp [actAuthorizes, hv] at ha
        rw [h]
        intro hmem
        rcases List.mem_append.mp hmem with hm | hm
        · exact hnl hm
        · exact hc2c (List.mem_singleton.mp hm).symm
    · show noEvents (connSent (handleText valid s c2 tok) c) = true
      rcases handleText_connSent valid s c2 tok c with ⟨tail, heq, htail⟩
      rw [heq, noEvents_append, hsent, htail]
      rfl
  | binaryMsg c2 => exact ⟨hnl, hsent⟩
  | timer c2 =>
    refine ⟨?_, ?_⟩
    · show c ∉ (timerFire s c2).collector.listeners
      rw [timerFire_listeners]
      exact hnl
    · show noEvents (connSent (timerFire s c2) c) = true
      rw [timerFire_connSent]
      exact hsent
  | exitLoop c2 =>
    refine ⟨?_, ?_⟩
    · show c ∉ (loopExit s c2).collector.listeners
      rcases loopExit_listeners s c2 with h | h
      · rw [h]; exact hnl
      · rw [h]
        intro hm
        exact hnl (List.mem_of_mem_erase hm)
    · show noEvents (connSent (loopExit s c2) c) = true
      rw [loopExit_connSent]
      exact hsent
  | record r =>
    refine ⟨?_, ?_⟩
    · show c ∉ (produce s r).collector.listeners
      rw [produce_listeners]
      exact hnl
    · show noEvents (connSent (produce s r) c) = true
      have hpc : connSent (produce s r) c = connSent s c := by
        unfold connSent
        rw [produce_conns]
      rw [hpc]
      exact hsent
  | deliver =>
    refine ⟨?_, ?_⟩
    · show c ∉ (deliverOne s).collector.listeners
      rw [deliverOne_listeners]
      exact hnl
    · show noEvents (connSent (deliverOne s) c) = true
      rw [deliverOne_connSent_of_not_mem s c hnl]
      exact hsent
  | shutdown =>
    refine ⟨?_, ?_⟩
    · show c ∉ (stopAll s).collector.listeners
      rw [stopAll_listeners]
      exact hnl
    · show noEvents (connSent (stopAll s) c) = true
      rw [stopAll_connSent]
      exact hsent

theorem run_preserves_silent (valid : String → Bool) (s : Sys) (c : Nat)
    (acts : List Act)
    (hnl : c ∉ s.collector.listeners)
    (hsent : noEvents (connSent s c) = true)
    (hacts : ∀ a ∈ acts, actAuthorizes valid c a = false) :
    c ∉ (run valid s acts).collector.listeners
    ∧ noEvents (connSent (run valid s acts) c) = true := by
  induction acts generalizing s with
  | nil => exact ⟨hnl, hsent⟩
  | cons a as ih =>
    have h1 := step_preserves_silent valid s c a hnl hsent
      (hacts a (List.mem_cons_self a as))
    exact ih (step valid s a) h1.1 h1.2
      (fun b hb => hacts b (List.mem_cons_of_mem a hb))

/-- Claim C3: the deadline timer force-closes a connection with the
policy-violation code 4000 if and only if it is still open and
unauthenticated when the timer fires — on an already-authenticated or
already-closed connection it does nothing — and a connection that never
sends a valid token is never in `handler.listeners` and never has a log
event delivered to it (it appears in no fan-out).  The five seconds of
`asyncio.sleep(5)` are modelled by the position of the `timer` act. -/
theorem deadline_timer_spec (valid : String → Bool) (s : Sys) (c : Nat) (conn : Conn)
    (acts : List Act) (hg : getConn s c = some conn)
    (hnl : c ∉ s.collector.listeners)
    (hsent : noEvents (connSent s c) = true)
    (hacts : ∀ a ∈ acts, actAuthorizes valid c a = false) :
    (conn.isOpen = true → conn.authenticated = false →
        timerFire s c
          = updateConn s c { conn with isOpen := false, closeCode := some 4000 })
    ∧ (conn.authenticated = true ∨ conn.isOpen = false → timerFire s c = s)
    ∧ c ∉ (run valid s acts).collector.listeners
    ∧ noEvents (connSent (run valid s acts) c) = true := by
  refine ⟨?_, ?_, ?_, ?_⟩
  · intro ho ha2
    simp [timerFire, hg, ha2, ho]
  · intro h
    rcases h with ha2 | ho
    · simp [timerFire, hg, ha2]
    · by_cases ha2 : conn.authenticated = true
      · simp [timerFire, hg, ha2]
      · simp [timerFire, hg, ha2, ho]
  · exact (run_preserves_silent valid s c acts hnl hsent hacts).1
  · exact (run_preserves_silent valid s c acts hnl hsent hacts).2

theorem deadline_timer_spec_witness :
    timerFire (wsConnect initSys 1 false false) 1
      = updateConn (wsConnect initSys 1 false false) 1
          { freshConn false false with isOpen := false, closeCode := some 4000 }
    ∧ 1 ∉ (run sampleValid (wsConnect initSys 1 false false)
            [Act.text 1 "wrong", Act.timer 1]).collector.listeners := by
  have h := deadline_timer_spec sampleValid (wsConnect initSys 1 false false) 1
    (freshConn false false) [Act.text 1 "wrong", Act.timer 1]
    (by decide) (by decide) (by decide) (by decide)
  exact ⟨h.1 rfl rfl, h.2.2.1⟩

/-! ### Shutdown (`stop_all`) lemmas -/

theorem closeSock_getConnL_ne (conns : List (Nat × Conn)) (d c : Nat) (h : d ≠ c) :
    getConnL (closeSock conns d) c = getConnL conns c := by
  unfold closeSock
  cases hgd : getConnL conns d with
  | none => rfl
  | some conn =>
    by_cases hcf : conn.closeFails = true
    · simp [hcf]
    · by_cases ho : conn.isOpen = true
      · simp [hcf, ho, getConnL_update_ne _ _ _ _ h]
      · simp [hcf, ho]

theorem foldl_closeSock_closed (socks : List Nat) (conns : List (Nat × Conn))
    (c : Nat) (k : Conn) (hk : k.isOpen = false)
    (hg : getConnL conns c = some k) :
    getConnL (socks.foldl closeSock conns) c = some k := by
  induction socks generalizing conns with
  | nil => exact hg
  | cons d ds ih =>
    rw [List.foldl_cons]
    refine ih (closeSock conns d) ?_
    by_cases hdc : d = c
    · subst hdc
      unfold closeSock
      rw [hg]
      by_cases hcf : k.closeFails = true
      · simp [hcf, hg]
      · simp [hcf, hk, hg]
    · rw [closeSock_getConnL_ne conns d c hdc]
      exact hg

theorem foldl_closeSock_closes (socks : List Nat) (conns : List (Nat × Conn))
    (c : Nat) (conn : Conn) (hc : c ∈ socks)
    (hg : getConnL conns c = some conn)
    (hcf : conn.closeFails = false) (ho : conn.isOpen = true) :
    getConnL (socks.foldl closeSock conns) c
      = some { conn with isOpen := false, closeCode := some 1012 } := by
  induction socks generalizing conns conn with
  | nil => exact absurd hc (List.not_mem_nil c)
  | cons d ds ih =>
    rw [List.foldl_cons]
    by_cases hdc : d = c
    · subst hdc
      have hstep : getConnL (closeSock conns d) d
          = some { conn with isOpen := false, closeCode := some 1012 } := by
        unfold closeSock
        rw [hg]
        simp [hcf, ho, getConnL_update_self conns d _ conn hg]
      exact foldl_closeSock_closed ds (closeSock conns d) d _ rfl hstep
    · have hc2 : c ∈ ds := by
        rcases List.mem_cons.mp hc with h | h
        · exact absurd h.symm hdc
        · exact h
      refine ih (closeSock conns d) conn hc2 ?_ hcf ho
      rw [closeSock_getConnL_ne conns d c hdc]
      exact hg

/-- Claim C7: `stop_all` detaches the handler from the root logger and
closes every tracked connection — authenticated or not — with the
service-restart code 1012; a failure closing one socket (`closeFails`
elsewhere arbitrary) never prevents the others from being closed, and a
`record()` call after shutdown is a complete no-op (nothing is delivered). -/
theorem stopAll_shutdown (s : Sys) (c : Nat) (conn : Conn) (r : LogRecord)
    (hc : c ∈ s.sockets) (hg : getConn s c = some conn)
    (hcf : conn.closeFails = false) (ho : conn.isOpen = true) :
    (stopAll s).attached = false
    ∧ getConn (stopAll s) c
        = some { conn with isOpen := false, closeCode := some 1012 }
    ∧ produce (stopAll s) r = stopAll s := by
  refine ⟨rfl, ?_, ?_⟩
  · show getConnL (s.sockets.foldl closeSock s.conns) c = _
    exact foldl_closeSock_closes s.sockets s.conns c conn hc hg hcf ho
  · unfold produce
    simp [stopAll]

theorem stopAll_shutdown_witness :
    (stopAll (wsConnect initSys 1 false false)).attached = false
    ∧ getConn (stopAll (wsConnect initSys 1 false false)) 1
        = some { freshConn false false with isOpen := false, closeCode := some 1012 } := by
  have h := stopAll_shutdown (wsConnect initSys 1 false false) 1
    (freshConn false false) sampleRecord (by decide) (by decide) rfl rfl
  exact ⟨h.1, h.2.1⟩

/-! ### Fan-out failure isolation lemmas -/

theorem fanout_delivers (e : Event) (ls : List Nat) (conns : List (Nat × Conn))
    (l : Nat) (conn : Conn) (hcount : ls.count l = 1)
    (hg : getConnL conns l = some conn)
    (ho : conn.isOpen = true) (hsf : conn.sendFails = false) :
    getConnL (fanout e ls conns).1 l
      = some { conn with sent := conn.sent ++ [OutMsg.event e] } := by
  induction ls generalizing conns with
  | nil => simp at hcount
  | cons d ds ih =>
    by_cases hdl : d = l
    · subst hdl
      have hnot : d ∉ ds := by
        rw [List.count_cons_self] at hcount
        have h0 : ds.count d = 0 := by omega
        exact List.count_eq_zero.mp h0
      have hstep : (sendEventTo conns e d).1
          = updateConnL conns d { conn with sent := conn.sent ++ [OutMsg.event e] } := by
        unfold sendEventTo
        rw [hg]
        simp [ho, hsf]
      show getConnL (fanout e ds (sendEventTo conns e d).1).1 d = _
      rw [fanout_getConnL_of_not_mem e ds _ d hnot, hstep,
          getConnL_update_self conns d _ conn hg]
    · have hcount2 : ds.count l = 1 := by
        rw [List.count_cons_of_ne (fun h => hdl h.symm)] at hcount
        exact hcount
      show getConnL (fanout e ds (sendEventTo conns e d).1).1 l = _
      refine ih (sendEventTo conns e d).1 hcount2 ?_
      rw [sendEventTo_getConnL_ne conns e d l hdl]
      exact hg

theorem fanout_failure_logged (e : Event) (ls : List Nat) (conns : List (Nat × Conn))
    (l : Nat) (conn : Conn) (hcount : ls.count l = 1)
    (hg : getConnL conns l = some conn)
    (hfail : conn.isOpen = false ∨ conn.sendFails = true) :
    getConnL (fanout e ls conns).1 l = some conn
    ∧ ("Log sending error: " ++ toString l) ∈ (fanout e ls conns).2 := by
  induction ls generalizing conns with
  | nil => simp at hcount
  | cons d ds ih =>
    by_cases hdl : d = l
    · subst hdl
      have hnot : d ∉ ds := by
        rw [List.count_cons_self] at hcount
        have h0 : ds.count d = 0 := by omega
        exact List.count_eq_zero.mp h0
      have hguard : (conn.isOpen && !conn.sendFails) = false := by
        rcases hfail with h | h <;> simp [h]
      have hstep : sendEventTo conns e d
          = (conns, ["Log sending error: " ++ toString d]) := by
        unfold sendEventTo
        rw [hg]
        simp [hguard]
      constructor
      · show getConnL (fanout e ds (sendEventTo conns e d).1).1 d = _
        rw [hstep]
        rw [fanout_getConnL_of_not_mem e ds conns d hnot]
        exact hg
      · show _ ∈ (sendEventTo conns e d).2 ++ (fanout e ds (sendEventTo conns e d).1).2
        rw [hstep]
        exact List.mem_append_left _ (List.mem_singleton.mpr rfl)
    · have hcount2 : ds.count l = 1 := by
        rw [List.count_cons_of_ne (fun h => hdl h.symm)] at hcount
        exact hcount
      have hpres : getConnL (sendEventTo conns e d).1 l = some conn := by
        rw [sendEventTo_getConnL_ne conns e d l hdl]
        exact hg
      have hrec := ih (sendEventTo conns e d).1 hcount2 hpres
      constructor
      · exact hrec.1
      · show _ ∈ (sendEventTo conns e d).2 ++ (fanout e ds (sendEventTo conns e d).1).2
        exact List.mem_append_right _ hrec.2

/-- Claim C8: when one scheduled `send` runs, a failing `ws.send_json` to
some listener is caught and logged to the fallback sink; every healthy
listener still receives the event regardless of the other listeners'
failures, and the broadcaster removes nobody from `handler.listeners`
(cleanup is left to the connection's own close path). -/
theorem send_failure_isolation (s : Sys) (e : Event) (rest : List Event)
    (l : Nat) (conn : Conn)
    (hp : s.collector.pending = e :: rest)
    (hcount : s.collector.listeners.count l = 1)
    (hg : getConn s l = some conn) :
    (deliverOne s).collector.listeners = s.collector.listeners
    ∧ (conn.isOpen = true → conn.sendFails = false →
        getConn (deliverOne s) l
          = some { conn with sent := conn.sent ++ [OutMsg.event e] })
    ∧ (conn.isOpen = false ∨ conn.sendFails = true →
        getConn (deliverOne s) l = some conn
        ∧ ("Log sending error: " ++ toString l) ∈ (deliverOne s).fallback) := by
  have hd : deliverOne s
      = { s with conns := (fanout e s.collector.listeners s.conns).1,
                 fallback := s.fallback ++ (fanout e s.collector.listeners s.conns).2,
                 collector := { s.collector with pending := rest } } := by
    unfold deliverOne
    rw [hp]
  refine ⟨?_, ?_, ?_⟩
  · rw [hd]
  · intro ho hsf
    rw [hd]
    show getConnL (fanout e s.collector.listeners s.conns).1 l = _
    exact fanout_delivers e s.collector.listeners s.conns l conn hcount hg ho hsf
  · intro hfail
    have h := fanout_failure_logged e s.collector.listeners s.conns l conn hcount hg hfail
    constructor
    · rw [hd]
      exact h.1
    · rw [hd]
      exact List.mem_append_right _ h.2

/-- A state with one healthy authenticated listener (id 1) and one whose
transport raises on send (id 2), with one scheduled send outstanding. -/
def sampleDeliverSys : Sys :=
  { attached := true
    collector := { lines := [sampleEvent], listeners := [1, 2], loopClosed := false,
                   pending := [sampleEvent] }
    sockets := [1, 2]
    conns := [(1, ⟨true, true, none, [], false, false⟩),
              (2, ⟨true, true, none, [], true, false⟩)]
    fallback := [] }

theorem send_failure_isolation_witness :
    getConn (deliverOne sampleDeliverSys) 1
      = some ⟨true, true, none, [OutMsg.event sampleEvent], false, false⟩
    ∧ ("Log sending error: " ++ toString 2) ∈ (deliverOne sampleDeliverSys).fallback
    ∧ (deliverOne sampleDeliverSys).collector.listeners
        = sampleDeliverSys.collector.listeners := by
  have h1 := send_failure_isolation sampleDeliverSys sampleEvent [] 1
    ⟨true, true, none, [], false, false⟩ rfl (by decide) (by decide)
  have h2 := send_failure_isolation sampleDeliverSys sampleEvent [] 2
    ⟨true, true, none, [], true, false⟩ rfl (by decide) (by decide)
  refine ⟨?_, (h2.2.2 (Or.inr rfl)).2, h1.1⟩
  have hd := h1.2.1 rfl rfl
  rw [hd]
  rfl

/-! ### FIFO delivery to a single subscriber -/

theorem produceAll_state (valid : String → Bool) (s : Sys) (rs : List LogRecord)
    (evs : List Event) (hat : s.attached = true)
    (hlc : s.collector.loopClosed = false) (hb : buildAll rs = some evs) :
    (run valid s (rs.map Act.record)).attached = true
    ∧ (run valid s (rs.map Act.record)).conns = s.conns
    ∧ (run valid s (rs.map Act.record)).collector.listeners = s.collector.listeners
    ∧ (run valid s (rs.map Act.record)).collector.loopClosed = false
    ∧ (run valid s (rs.map Act.record)).collector.pending
        = s.collector.pending ++ evs := by
  induction rs generalizing s evs with
  | nil =>
    simp only [buildAll, Option.some.injEq] at hb
    subst hb
    exact ⟨hat, rfl, rfl, hlc, by simp [run]⟩
  | cons r rs ih =>
    simp only [buildAll] at hb
    rcases hbc : buildContent r with e | e <;> rw [hbc] at hb
    · exact absurd hb (by simp)
    rcases hba : buildAll rs with _ | es <;> rw [hba] at hb
    · exact absurd hb (by simp)
    simp only [Option.some.injEq] at hb
    subst hb
    have hrun : run valid s ((r :: rs).map Act.record)
        = run valid (produce s r) (rs.map Act.record) := rfl
    have hemit := emit_ok s.collector r e hbc hlc
    have hat1 : (produce s r).attached = true := by simp [produce, hat]
    have hconns1 : (produce s r).conns = s.conns := produce_conns s r
    have hlist1 : (produce s r).collector.listeners = s.collector.listeners :=
      produce_listeners s r
    have hlc1 : (produce s r).collector.loopClosed = false := by
      simp only [produce, hat, if_true]
      rw [hemit]
      exact hlc
    have hpend1 : (produce s r).collector.pending = s.collector.pending ++ [e] := by
      simp only [produce, hat, if_true]
      rw [hemit]
    have hres := ih (produce s r) es hat1 hlc1 hba
    rw [hrun]
    refine ⟨hres.1, ?_, ?_, hres.2.2.2.1, ?_⟩
    · rw [hres.2.1, hconns1]
    · rw [hres.2.2.1, hlist1]
    · rw [hres.2.2.2.2, hpend1, List.append_assoc, List.singleton_append]

theorem deliverAll_sent (valid : String → Bool) (s : Sys) (c : Nat) (conn : Conn)
    (evs : List Event)
    (hg : getConn s c = some conn) (ho : conn.isOpen = true)
    (hsf : conn.sendFails = false)
    (hcount : s.collector.listeners.count c = 1)
    (hpend : s.collector.pending = evs) :
    connSent (run valid s (List.replicate evs.length Act.deliver)) c
      = conn.sent ++ evs.map OutMsg.event := by
  induction evs generalizing s conn with
  | nil =>
    have hgl : getConnL s.conns c = some conn := hg
    simp [run, connSent, connSentL, hgl]
  | cons e es ih =>
    have hrun : run valid s (List.replicate (e :: es).length Act.deliver)
        = run valid (deliverOne s) (List.replicate es.length Act.deliver) := by
      simp [List.replicate_succ, run, step]
    have hconn1 : getConn (deliverOne s) c
        = some { conn with sent := conn.sent ++ [OutMsg.event e] } := by
      have hd : deliverOne s
          = { s with conns := (fanout e s.collector.listeners s.conns).1,
                     fallback := s.fallback ++ (fanout e s.collector.listeners s.conns).2,
                     collector := { s.collector with pending := es } } := by
        unfold deliverOne
        rw [hpend]
      rw [hd]
      exact fanout_delivers e s.collector.listeners s.conns c conn hcount hg ho hsf
    have hpend1 : (deliverOne s).collector.pending = es := by
      unfold deliverOne
      rw [hpend]
    have hcount1 : (deliverOne s).collector.listeners.count c = 1 := by
      rw [deliverOne_listeners]
      exact hcount
    have hrec := ih (deliverOne s) { conn with sent := conn.sent ++ [OutMsg.event e] }
      hconn1 ho hsf hcount1 hpend1
    rw [hrun, hrec]
    simp

/-- Claim C6: for a single authenticated subscriber whose connection stays
open and healthy, every `record()` call made by the producer results in
exactly one transformed event delivered to that connection, in producer
emission order (FIFO per subscriber): after the producer emits `rs` and
the loop runs the scheduled sends in order, the messages received by the
connection extend by exactly the transformed events of `rs`, in order. -/
theorem fifo_exactly_once (valid : String → Bool) (s : Sys) (c : Nat) (conn : Conn)
    (rs : List LogRecord) (evs : List Event)
    (hg : getConn s c = some conn) (ho : conn.isOpen = true)
    (hsf : conn.sendFails = false)
    (hcount : s.collector.listeners.count c = 1)
    (hat : s.attached = true) (hlc : s.collector.loopClosed = false)
    (hpend : s.collector.pending = [])
    (hb : buildAll rs = some evs) :
    connSent (run valid s
        (rs.map Act.record ++ List.replicate evs.length Act.deliver)) c
      = conn.sent ++ evs.map OutMsg.event := by
  have hsplit : run valid s (rs.map Act.record ++ List.replicate evs.length Act.deliver)
      = run valid (run valid s (rs.map Act.record))
          (List.replicate evs.length Act.deliver) := by
    unfold run
    rw [List.foldl_append]
  have hp := produceAll_state valid s rs evs hat hlc hb
  have hg1 : getConn (run valid s (rs.map Act.record)) c = some conn := by
    show getConnL (run valid s (rs.map Act.record)).conns c = some conn
    rw [hp.2.1]
    exact hg
  have hcount1 : (run valid s (rs.map Act.record)).collector.listeners.count c = 1 := by
    rw [hp.2.2.1]
    exact hcount
  have hpend1 : (run valid s (rs.map Act.record)).collector.pending = evs := by
    rw [hp.2.2.2.2, hpend]
    simp
  rw [hsplit]
  exact deliverAll_sent valid (run valid s (rs.map Act.record)) c conn evs
    hg1 ho hsf hcount1 hpend1

/-- A state with exactly one authenticated, healthy subscriber (id 1). -/
def sampleSubSys : Sys :=
  { attached := true
    collector := { lines := [], listeners := [1], loopClosed := false, pending := [] }
    sockets := [1]
    conns := [(1, ⟨true, true, none, [], false, false⟩)]
    fallback := [] }

theorem fifo_exactly_once_witness :
    connSent (run sampleValid sampleSubSys
        ([sampleRecord].map Act.record
          ++ List.replicate ([sampleEvent] : List Event).length Act.deliver)) 1
      = (⟨true, true, none, [], false, false⟩ : Conn).sent
          ++ [sampleEvent].map OutMsg.event :=
  fifo_exactly_once sampleValid sampleSubSys 1 ⟨true, true, none, [], false, false⟩
    [sampleRecord] [sampleEvent] rfl rfl rfl (by decide) rfl rfl rfl (by decide)

end Maubot.Log
